/-
Verification of the `ctrnn` repository (Rust): a continuous-time recurrent
neural network (`CTRNN`, src/lib.rs), its reinforcement-adaptive variant
(`RLCTRNN`, src/rlctrnn.rs) built from self-tuning oscillating parameters
(`Fluctuator`, src/fluctuator.rs), and the activation helpers
(src/activation.rs).

Embedding conventions:
- `f64` arithmetic is modelled by real arithmetic (`ℝ`).
- `Vec<f64>` / `Vec<Fluctuator>` are Lean `List`s; the panicking index
  `v[i]` is modelled by `List.get?` threaded through `Option` (a panic is
  `none`), while Rust's total `inputs.get(i).unwrap_or(&0.0)` is `List.getD`.
- Mutating methods become functions returning the updated structure.
-/
import Mathlib

noncomputable section

/-- src/activation.rs: `sigmoid(x) = (1.0 + (-x).exp()).recip()`. -/
def sigmoid (x : ℝ) : ℝ := (1 + Real.exp (-x))⁻¹

/-- Rust `std::ops::Range<f64>` as used by the Fluctuator: a pair of
bounds `start..end` (the `end` field is called `stop` here since `end`
is a Lean keyword). -/
structure RRange where
  start : ℝ
  stop : ℝ

/-- src/fluctuator.rs, `impl Clamp<f64> for Range<f64>`:
`self.start.max(self.end.min(value))`. -/
def RRange.clamp (r : RRange) (value : ℝ) : ℝ :=
  max r.start (min r.stop value)

/-- src/fluctuator.rs: the `Fluctuator` struct. -/
structure Fluctuator where
  center : ℝ
  range : RRange
  range_period : RRange
  range_amplitude : RRange
  period : ℝ
  amplitude : ℝ
  time : ℝ
  convergence_rate : ℝ
  learning_rate : ℝ

/-- src/fluctuator.rs, `impl Default for Fluctuator`. -/
def Fluctuator.default : Fluctuator where
  center := 0
  range := ⟨-16, 16⟩
  range_period := ⟨3, 12⟩
  range_amplitude := ⟨0.001, 10⟩
  period := 0
  amplitude := 0
  time := 0
  convergence_rate := 0.1
  learning_rate := 0.1

/-- src/fluctuator.rs, `Fluctuator::randomize_period`:
`diff = end - start; p = start + diff * 0.0;
period = (p * 10.0).floor() / 10.0; time = 0.0`. -/
def Fluctuator.randomize_period (f : Fluctuator) : Fluctuator :=
  let diff := f.range_period.stop - f.range_period.start
  let p := f.range_period.start + diff * 0.0
  { f with period := (⌊p * 10.0⌋ : ℝ) / 10.0, time := 0.0 }

/-- src/fluctuator.rs, `Fluctuator::new(center)`: default fields with the
given center, then `randomize_period`. -/
def Fluctuator.new (center : ℝ) : Fluctuator :=
  ({ Fluctuator.default with center := center }).randomize_period

/-- src/fluctuator.rs, `Fluctuator::get`:
`theta = time * 2.0 * PI / period; center + amplitude * theta.sin()`. -/
def Fluctuator.get (f : Fluctuator) : ℝ :=
  let theta := f.time * 2.0 * Real.pi / f.period
  f.center + f.amplitude * Real.sin theta

/-- src/fluctuator.rs, `Fluctuator::update(dt, reward)`; returns the
post-state together with the returned perturbation `d`. -/
def Fluctuator.update (f : Fluctuator) (dt reward : ℝ) : Fluctuator × ℝ :=
  let amplitude1 := f.amplitude - f.convergence_rate * f.range_amplitude.stop * reward
  let amplitude2 := f.range_amplitude.clamp amplitude1
  let theta := f.time * 2.0 * Real.pi / f.period
  let d := amplitude2 * Real.sin theta
  let center := f.center + f.learning_rate * d * reward
  let time := f.time + dt
  let f1 : Fluctuator :=
    { f with amplitude := amplitude2, center := center, time := time }
  (if f1.time > f1.period then f1.randomize_period else f1, d)

/-- The value of a freshly constructed Fluctuator is its center
(amplitude starts at 0). -/
theorem Fluctuator.get_new (c : ℝ) : (Fluctuator.new c).get = c := by
  simp [Fluctuator.new, Fluctuator.get, Fluctuator.default, Fluctuator.randomize_period]

theorem Fluctuator.new_center (c : ℝ) : (Fluctuator.new c).center = c := rfl

theorem Fluctuator.new_amplitude (c : ℝ) : (Fluctuator.new c).amplitude = 0 := rfl

theorem Fluctuator.new_time (c : ℝ) : (Fluctuator.new c).time = 0 := by
  show (0.0 : ℝ) = 0
  norm_num

theorem Fluctuator.new_range_period (c : ℝ) :
    (Fluctuator.new c).range_period = ⟨3, 12⟩ := rfl

theorem Fluctuator.new_range_amplitude (c : ℝ) :
    (Fluctuator.new c).range_amplitude = ⟨0.001, 10⟩ := rfl

theorem Fluctuator.new_period (c : ℝ) : (Fluctuator.new c).period = 3 := by
  show ((⌊((3 : ℝ) + (12 - 3) * 0.0) * 10.0⌋ : ℝ) / 10.0) = 3
  norm_num

/-- The amplitude stored by `update` is the clamp of the decremented
amplitude, whether or not the period is resampled. -/
theorem Fluctuator.update_amplitude (f : Fluctuator) (dt reward : ℝ) :
    ((f.update dt reward).1).amplitude =
      f.range_amplitude.clamp
        (f.amplitude - f.convergence_rate * f.range_amplitude.stop * reward) := by
  simp only [Fluctuator.update, Fluctuator.randomize_period]
  split <;> rfl

theorem Fluctuator.update_range_amplitude (f : Fluctuator) (dt reward : ℝ) :
    ((f.update dt reward).1).range_amplitude = f.range_amplitude := by
  simp only [Fluctuator.update, Fluctuator.randomize_period]
  split <;> rfl

theorem Fluctuator.update_range_period (f : Fluctuator) (dt reward : ℝ) :
    ((f.update dt reward).1).range_period = f.range_period := by
  simp only [Fluctuator.update, Fluctuator.randomize_period]
  split <;> rfl

/-- Time/period evolution of one `update` call: the resample fires exactly
when the advanced time exceeds the (unchanged) period. -/
theorem Fluctuator.update_time_period (f : Fluctuator) (dt reward : ℝ) :
    (f.time + dt > f.period →
      ((f.update dt reward).1).time = 0 ∧
      ((f.update dt reward).1).period =
        (⌊(f.range_period.start + (f.range_period.stop - f.range_period.start) * 0.0) * 10.0⌋ : ℝ) / 10.0) ∧
    (¬ f.time + dt > f.period →
      ((f.update dt reward).1).time = f.time + dt ∧
      ((f.update dt reward).1).period = f.period) := by
  constructor
  · intro h
    simp only [Fluctuator.update, Fluctuator.randomize_period]
    rw [if_pos h]
    norm_num
  · intro h
    simp only [Fluctuator.update]
    rw [if_neg h]
    exact ⟨rfl, rfl⟩

/-! Generic helper lemmas about `Option`-threaded list folds, used to relate
the panicking Rust loops to pure formulas when every index is in range. -/

theorem foldlM_option_eq_foldl {α β : Type} (g : β → α → Option β) (g2 : β → α → β)
    (l : List α) (h : ∀ b a, a ∈ l → g b a = some (g2 b a)) :
    ∀ b : β, l.foldlM g b = some (l.foldl g2 b) := by
  induction l with
  | nil => intro b; rfl
  | cons a l ih =>
      intro b
      rw [List.foldlM_cons, h b a (List.mem_cons_self a l), List.foldl_cons]
      show l.foldlM g (g2 b a) = some (l.foldl g2 (g2 b a))
      exact ih (fun b a ha => h b a (List.mem_cons_of_mem _ ha)) (g2 b a)

theorem mapM_option_eq_map {α β : Type} (g : α → Option β) (g2 : α → β)
    (l : List α) (h : ∀ a ∈ l, g a = some (g2 a)) :
    l.mapM g = some (l.map g2) := by
  induction l with
  | nil => rfl
  | cons a l ih =>
      rw [List.mapM_cons, List.map_cons, h a (List.mem_cons_self a l)]
      show (l.mapM g).bind _ = _
      rw [ih (fun a ha => h a (List.mem_cons_of_mem _ ha))]
      rfl

theorem mapM_option_eq_none {α β : Type} (g : α → Option β)
    (l : List α) (a : α) (ha : a ∈ l) (hg : g a = none) :
    l.mapM g = none := by
  induction l with
  | nil => cases ha
  | cons b l ih =>
      rw [List.mapM_cons]
      rcases List.mem_cons.mp ha with h | h
      · subst h
        rw [hg]
        rfl
      · cases hb : g b with
        | none => rfl
        | some v =>
            rw [ih h]
            rfl

theorem get?_eq_some_getD {α : Type} (l : List α) (d : α) (j : ℕ) (h : j < l.length) :
    l.get? j = some (l.getD j d) := by
  rw [List.getD_eq_getD_get?]
  cases hg : l.get? j with
  | none => exact absurd (List.get?_eq_none.mp hg) (Nat.not_le.mpr h)
  | some v => rfl

theorem foldl_add_range (g : ℕ → ℝ) (n : ℕ) :
    ∀ a : ℝ, (List.range n).foldl (fun s j => s + g j) a = a + ∑ j ∈ Finset.range n, g j := by
  induction n with
  | zero => intro a; simp
  | succ n ih =>
      intro a
      rw [List.range_succ, List.foldl_append, ih, Finset.sum_range_succ, List.foldl_cons,
        List.foldl_nil, add_assoc]

/-! ## RLCTRNN (src/rlctrnn.rs) -/

/-- src/rlctrnn.rs: the `RLCTRNN` struct. -/
structure RLCTRNN where
  count : ℕ
  biases : List Fluctuator
  time_constants : List Fluctuator
  weights : List (List Fluctuator)

/-- src/rlctrnn.rs, `RLCTRNN::new(nodes)`: the construction loop pushes a
`Fluctuator::from(0.0)` bias, a `Fluctuator::from(1.0)` time constant and a
row of `nodes` `Fluctuator::from(0.0)` weights, once per node. -/
def RLCTRNN.new (nodes : ℕ) : RLCTRNN where
  count := nodes
  biases := List.replicate nodes (Fluctuator.new 0)
  time_constants := List.replicate nodes (Fluctuator.new 1)
  weights := List.replicate nodes (List.replicate nodes (Fluctuator.new 0))

/-- src/rlctrnn.rs, `RLCTRNN::set_bias`: `self.biases[index].center = value`
(the `Vec` index panics when out of range, modelled as `none`). -/
def RLCTRNN.set_bias (c : RLCTRNN) (index : ℕ) (value : ℝ) : Option RLCTRNN :=
  (c.biases.get? index).bind fun fl =>
    some { c with biases := c.biases.set index { fl with center := value } }

/-- src/rlctrnn.rs, `RLCTRNN::set_time_constant`:
`self.time_constants[index].center = value`. -/
def RLCTRNN.set_time_constant (c : RLCTRNN) (index : ℕ) (value : ℝ) : Option RLCTRNN :=
  (c.time_constants.get? index).bind fun fl =>
    some { c with time_constants := c.time_constants.set index { fl with center := value } }

/-- src/rlctrnn.rs, `RLCTRNN::set_weight(from, to, value)`:
`self.weights[to][from].center = value`. -/
def RLCTRNN.set_weight (c : RLCTRNN) (source target : ℕ) (value : ℝ) : Option RLCTRNN :=
  (c.weights.get? target).bind fun row =>
    (row.get? source).bind fun fl =>
      some { c with weights := c.weights.set target (row.set source { fl with center := value }) }

/-- src/rlctrnn.rs, `RLCTRNN::get_delta(voltages, index)`:
`weights = &self.weights[index]`, then the loop
`for j in 0..count { sum += weights[j].get() * sigmoid(voltages[j] + biases[j].get()) }`,
then `(sum - voltages[index]) / time_constants[index].get()`. -/
def RLCTRNN.get_delta (c : RLCTRNN) (voltages : List ℝ) (index : ℕ) : Option ℝ :=
  (c.weights.get? index).bind fun ws =>
    ((List.range c.count).foldlM (fun sum j =>
        (voltages.get? j).bind fun v =>
          (c.biases.get? j).bind fun b =>
            (ws.get? j).bind fun w =>
              some (sum + w.get * sigmoid (v + b.get))) 0).bind fun sum =>
      (voltages.get? index).bind fun v =>
        (c.time_constants.get? index).bind fun tau =>
          some ((sum - v) / tau.get)

/-- src/rlctrnn.rs, `RLCTRNN::update(dt, voltages, inputs)`:
`(0..count).map(|i| voltages[i] + get_delta(&voltages, i) * dt
+ inputs.get(i).unwrap_or(&0.0)).collect()`. -/
def RLCTRNN.update (c : RLCTRNN) (dt : ℝ) (voltages inputs : List ℝ) : Option (List ℝ) :=
  (List.range c.count).mapM fun i =>
    (voltages.get? i).bind fun v =>
      (c.get_delta voltages i).bind fun d =>
        some (v + d * dt + inputs.getD i 0)

/-- Well-formedness of an `RLCTRNN`: the shape invariant `RLCTRNN::new`
establishes (and every method preserves). -/
def RLCTRNN.WF (c : RLCTRNN) : Prop :=
  c.biases.length = c.count ∧ c.time_constants.length = c.count ∧
    c.weights.length = c.count ∧ ∀ row ∈ c.weights, row.length = c.count

theorem RLCTRNN.new_WF (n : ℕ) : (RLCTRNN.new n).WF := by
  refine ⟨List.length_replicate _ _, List.length_replicate _ _, List.length_replicate _ _, ?_⟩
  intro row hrow
  rw [List.eq_of_mem_replicate hrow]
  exact List.length_replicate _ _

/-- `get_delta` evaluates to the spec formula `(sum_i − voltages[i]) / τ_i.get()`
when the network is well-formed and the voltage vector covers all nodes. -/
theorem RLCTRNN.get_delta_eq (c : RLCTRNN) (hwf : c.WF) (voltages : List ℝ) (index : ℕ)
    (hidx : index < c.count) (hv : c.count ≤ voltages.length) :
    c.get_delta voltages index = some
      (((∑ j ∈ Finset.range c.count,
          ((c.weights.getD index []).getD j Fluctuator.default).get *
            sigmoid (voltages.getD j 0 + (c.biases.getD j Fluctuator.default).get)) -
        voltages.getD index 0) / (c.time_constants.getD index Fluctuator.default).get) := by
  obtain ⟨hb, ht, hw, hrow⟩ := hwf
  have hwlen : index < c.weights.length := by rw [hw]; exact hidx
  have hweq : c.weights.get? index = some (c.weights.getD index []) :=
    get?_eq_some_getD c.weights [] index hwlen
  have hrowlen : (c.weights.getD index []).length = c.count :=
    hrow _ (List.get?_mem hweq)
  unfold RLCTRNN.get_delta
  rw [hweq, Option.some_bind]
  rw [foldlM_option_eq_foldl _
      (fun s j => s + ((c.weights.getD index []).getD j Fluctuator.default).get *
        sigmoid (voltages.getD j 0 + (c.biases.getD j Fluctuator.default).get))
      (List.range c.count) ?_ 0]
  · rw [Option.some_bind, foldl_add_range, zero_add,
      get?_eq_some_getD voltages 0 index (lt_of_lt_of_le hidx hv), Option.some_bind,
      get?_eq_some_getD c.time_constants Fluctuator.default index (by rw [ht]; exact hidx),
      Option.some_bind]
  · intro b j hj
    have hjc : j < c.count := List.mem_range.mp hj
    rw [get?_eq_some_getD voltages 0 j (lt_of_lt_of_le hjc hv), Option.some_bind,
      get?_eq_some_getD c.biases Fluctuator.default j (by rw [hb]; exact hjc), Option.some_bind,
      get?_eq_some_getD (c.weights.getD index []) Fluctuator.default j
        (by rw [hrowlen]; exact hjc), Option.some_bind]

/-- `update` evaluates to the spec formula for every node when the network is
well-formed and the voltage vector covers all nodes; the length of `inputs` is
irrelevant (missing entries read as `0.0`). -/
theorem RLCTRNN.update_eq (c : RLCTRNN) (hwf : c.WF) (dt : ℝ) (voltages inputs : List ℝ)
    (hv : c.count ≤ voltages.length) :
    c.update dt voltages inputs = some ((List.range c.count).map (fun i =>
      voltages.getD i 0 +
        ((∑ j ∈ Finset.range c.count,
            ((c.weights.getD i []).getD j Fluctuator.default).get *
              sigmoid (voltages.getD j 0 + (c.biases.getD j Fluctuator.default).get)) -
          voltages.getD i 0) / (c.time_constants.getD i Fluctuator.default).get * dt +
        inputs.getD i 0)) := by
  unfold RLCTRNN.update
  apply mapM_option_eq_map
  intro i hi
  have hic : i < c.count := List.mem_range.mp hi
  rw [get?_eq_some_getD voltages 0 i (lt_of_lt_of_le hic hv), Option.some_bind,
    RLCTRNN.get_delta_eq c hwf voltages i hic hv, Option.some_bind]

theorem getD_take {α : Type} (l : List α) (n j : ℕ) (d : α) (h : j < n) :
    (l.take n).getD j d = l.getD j d := by
  rw [List.getD_eq_getD_get?, List.getD_eq_getD_get?, List.get?_take h]

/-- C8: calling `RLCTRNN::update` with a voltage vector strictly shorter than
the node count fails with an index error (`none`); it neither truncates the
computation nor returns a partial result. -/
theorem c8_short_voltages_fail (c : RLCTRNN) (dt : ℝ) (voltages inputs : List ℝ)
    (hv : voltages.length < c.count) :
    c.update dt voltages inputs = none := by
  unfold RLCTRNN.update
  apply mapM_option_eq_none _ _ voltages.length (List.mem_range.mpr hv)
  rw [List.get?_eq_none.mpr (le_refl _)]
  rfl

/-- C8 witness: `RLCTRNN::new(3).update(dt, [0,0], [0,0,0])` fails. -/
theorem c8_short_voltages_fail_witness :
    ([(0 : ℝ), 0] : List ℝ).length < (RLCTRNN.new 3).count ∧
      (RLCTRNN.new 3).update 1 [0, 0] [0, 0, 0] = none :=
  ⟨by norm_num [RLCTRNN.new],
   c8_short_voltages_fail (RLCTRNN.new 3) 1 [0, 0] [0, 0, 0] (by norm_num [RLCTRNN.new])⟩

/-- C10: with a voltage vector of length at least `count`, `update` always
succeeds with a vector of length exactly `count`, whatever the length of
`inputs`; entries of `voltages` and `inputs` beyond index `count` are ignored
(the call equals the call on the truncated vectors). -/
theorem c10_update_ignores_excess (c : RLCTRNN) (hwf : c.WF) (dt : ℝ)
    (voltages inputs : List ℝ) (hv : c.count ≤ voltages.length) :
    (∃ next, c.update dt voltages inputs = some next ∧ next.length = c.count) ∧
      c.update dt voltages inputs =
        c.update dt (voltages.take c.count) (inputs.take c.count) := by
  constructor
  · exact ⟨_, RLCTRNN.update_eq c hwf dt voltages inputs hv,
      by rw [List.length_map, List.length_range]⟩
  · rw [RLCTRNN.update_eq c hwf dt voltages inputs hv,
      RLCTRNN.update_eq c hwf dt (voltages.take c.count) (inputs.take c.count)
        (by rw [List.length_take]; exact le_min (le_refl _) hv)]
    congr 1
    apply List.map_congr_left
    intro i hi
    have hic : i < c.count := List.mem_range.mp hi
    rw [getD_take voltages c.count i 0 hic, getD_take inputs c.count i 0 hic]
    have hsum : (∑ j ∈ Finset.range c.count,
        ((c.weights.getD i []).getD j Fluctuator.default).get *
          sigmoid ((voltages.take c.count).getD j 0 + (c.biases.getD j Fluctuator.default).get)) =
        ∑ j ∈ Finset.range c.count,
          ((c.weights.getD i []).getD j Fluctuator.default).get *
            sigmoid (voltages.getD j 0 + (c.biases.getD j Fluctuator.default).get) := by
      apply Finset.sum_congr rfl
      intro j hj
      rw [getD_take voltages c.count j 0 (Finset.mem_range.mp hj)]
    rw [hsum]

/-- C10 witness: a 1-node network with an over-long voltage vector and an
over-long input vector succeeds with a length-1 result. -/
theorem c10_update_ignores_excess_witness :
    (RLCTRNN.new 1).WF ∧ (RLCTRNN.new 1).count ≤ ([(0 : ℝ), 5] : List ℝ).length ∧
      ((∃ next, (RLCTRNN.new 1).update 1 [0, 5] [2, 3, 4] = some next ∧
          next.length = (RLCTRNN.new 1).count) ∧
        (RLCTRNN.new 1).update 1 [0, 5] [2, 3, 4] =
          (RLCTRNN.new 1).update 1 (([(0 : ℝ), 5]).take (RLCTRNN.new 1).count)
            (([(2 : ℝ), 3, 4]).take (RLCTRNN.new 1).count)) :=
  ⟨RLCTRNN.new_WF 1, by norm_num [RLCTRNN.new],
   c10_update_ignores_excess (RLCTRNN.new 1) (RLCTRNN.new_WF 1) 1 [0, 5] [2, 3, 4]
     (by norm_num [RLCTRNN.new])⟩

theorem sigmoid_zero : sigmoid 0 = 1 / 2 := by
  rw [sigmoid, neg_zero, Real.exp_zero]
  norm_num

/-- The §8 end-to-end scenario network: `RLCTRNN::new(2)` followed by
`set_weight(0, 1, 1.0)` and `set_weight(1, 0, 1.0)`. -/
def scenario_net : Option RLCTRNN :=
  ((RLCTRNN.new 2).set_weight 0 1 1).bind fun c => c.set_weight 1 0 1

theorem scenario_net_eq : scenario_net = some
    { count := 2,
      biases := [Fluctuator.new 0, Fluctuator.new 0],
      time_constants := [Fluctuator.new 1, Fluctuator.new 1],
      weights := [[Fluctuator.new 0, { Fluctuator.new 0 with center := 1 }],
                  [{ Fluctuator.new 0 with center := 1 }, Fluctuator.new 0]] } := by
  unfold scenario_net RLCTRNN.set_weight RLCTRNN.new
  simp [List.replicate]

theorem center_set_get (f : Fluctuator) (v : ℝ) :
    ({ f with center := v } : Fluctuator).get = v + f.amplitude *
      Real.sin (f.time * 2.0 * Real.pi / f.period) := rfl

/-- Value of the scenario update: `next[0] = 0.95`,
`next[1] = 0.1 * sigmoid(1.0)`. -/
theorem scenario_value :
    scenario_net.bind (fun net => net.update 0.1 [1, 0] [0, 0]) =
      some [0.95, 0.1 * sigmoid 1] := by
  rw [scenario_net_eq, Option.some_bind]
  rw [RLCTRNN.update_eq _
    ⟨rfl, rfl, rfl, by intro row hrow; fin_cases hrow <;> rfl⟩ _ _ _ (by norm_num)]
  show some ((List.range 2).map _) = _
  rw [show List.range 2 = [0, 1] from rfl]
  simp only [List.map_cons, List.map_nil, List.getD, List.get?, Option.getD_some,
    Finset.sum_range_succ, Finset.sum_range_zero, center_set_get, Fluctuator.get_new,
    Fluctuator.new_amplitude, Fluctuator.new_time, Fluctuator.new_period]
  norm_num [sigmoid_zero]
  constructor
  · simp only [Fluctuator.get]
    norm_num
  · simp only [Fluctuator.get]
    norm_num
    ring

/-- C1: for every well-formed `RLCTRNN`, every `dt`, every voltage vector of
length `count` and every input vector, `update` returns the vector whose
`i`-th entry is
`voltages[i] + ((sum_i - voltages[i]) / time_constants[i].get()) * dt + inputs[i]`
with `sum_i = Σ_j weights[i][j].get() * sigmoid(voltages[j] + biases[j].get())`
and missing input entries read as `0.0`; moreover the concrete two-node §8
scenario (`new(2)`, `set_weight(0,1,1.0)`, `set_weight(1,0,1.0)`,
`voltages = [1, 0]`, `inputs = [0, 0]`, `dt = 0.1`) yields
`next[0] = 0.95` and `next[1] = 0.1 * sigmoid(1.0)`. -/
theorem c1_update_formula (c : RLCTRNN) (hwf : c.WF) (dt : ℝ) (voltages inputs : List ℝ)
    (hv : voltages.length = c.count) :
    c.update dt voltages inputs = some ((List.range c.count).map (fun i =>
      voltages.getD i 0 +
        ((∑ j ∈ Finset.range c.count,
            ((c.weights.getD i []).getD j Fluctuator.default).get *
              sigmoid (voltages.getD j 0 + (c.biases.getD j Fluctuator.default).get)) -
          voltages.getD i 0) / (c.time_constants.getD i Fluctuator.default).get * dt +
        inputs.getD i 0)) ∧
      scenario_net.bind (fun net => net.update 0.1 [1, 0] [0, 0]) =
        some [0.95, 0.1 * sigmoid 1] :=
  ⟨RLCTRNN.update_eq c hwf dt voltages inputs (le_of_eq hv.symm), scenario_value⟩

/-- C1 witness: the formula at the concrete one-node network `new(1)` with
`voltages = [2]`, `inputs = [5]`, `dt = 3`. -/
theorem c1_update_formula_witness :
    (RLCTRNN.new 1).WF ∧ ([(2 : ℝ)] : List ℝ).length = (RLCTRNN.new 1).count ∧
      ((RLCTRNN.new 1).update 3 [2] [5] = some ((List.range (RLCTRNN.new 1).count).map (fun i =>
        ([(2 : ℝ)] : List ℝ).getD i 0 +
          ((∑ j ∈ Finset.range (RLCTRNN.new 1).count,
              (((RLCTRNN.new 1).weights.getD i []).getD j Fluctuator.default).get *
                sigmoid (([(2 : ℝ)] : List ℝ).getD j 0 +
                  ((RLCTRNN.new 1).biases.getD j Fluctuator.default).get)) -
            ([(2 : ℝ)] : List ℝ).getD i 0) /
              ((RLCTRNN.new 1).time_constants.getD i Fluctuator.default).get * 3 +
          ([(5 : ℝ)] : List ℝ).getD i 0)) ∧
        scenario_net.bind (fun net => net.update 0.1 [1, 0] [0, 0]) =
          some [0.95, 0.1 * sigmoid 1]) :=
  ⟨RLCTRNN.new_WF 1, rfl, c1_update_formula (RLCTRNN.new 1) (RLCTRNN.new_WF 1) 3 [2] [5] rfl⟩

theorem Fluctuator.new_convergence_rate (c : ℝ) :
    (Fluctuator.new c).convergence_rate = 0.1 := rfl

/-- C2: `Fluctuator::update(dt, reward)` performs, in this order: (1) the
amplitude becomes the clamp of `amplitude - convergence_rate * amplitude_max *
reward` into the amplitude range; (2) the returned perturbation `d` is computed
from the new amplitude with the phase as it stands before time advances,
exactly as `get` computes it (`d = get-after-amplitude-step - center`);
(3) the center drifts by `learning_rate * d * reward`; (4) time advances by
`dt`; (5) the period is resampled exactly when the new time exceeds it. -/
theorem c2_update_order (f : Fluctuator) (dt reward : ℝ) :
    (f.update dt reward).2 =
      Fluctuator.get { f with amplitude := (f.range_amplitude.clamp
        (f.amplitude - f.convergence_rate * f.range_amplitude.stop * reward)) } - f.center ∧
    (f.update dt reward).1 =
      (if f.time + dt > f.period
       then Fluctuator.randomize_period { f with
          amplitude := (f.range_amplitude.clamp
            (f.amplitude - f.convergence_rate * f.range_amplitude.stop * reward)),
          center := f.center + f.learning_rate * (f.update dt reward).2 * reward,
          time := f.time + dt }
       else { f with
          amplitude := (f.range_amplitude.clamp
            (f.amplitude - f.convergence_rate * f.range_amplitude.stop * reward)),
          center := f.center + f.learning_rate * (f.update dt reward).2 * reward,
          time := f.time + dt }) := by
  have hd : (f.update dt reward).2 = f.range_amplitude.clamp
      (f.amplitude - f.convergence_rate * f.range_amplitude.stop * reward) *
        Real.sin (f.time * 2.0 * Real.pi / f.period) := rfl
  constructor
  · rw [hd]
    simp [Fluctuator.get]
  · rw [hd]
    rfl

/-- C4 counterexample: a freshly constructed Fluctuator has amplitude `0`,
strictly below the lower amplitude bound `0.001`; with the strictly positive
reward `1` the amplitude after `update` is `0.001 > 0`, so a positive reward
does not always leave the amplitude less than or equal to its prior value. -/
theorem c4_counterexample :
    (0 : ℝ) < 1 ∧
      ¬ (((Fluctuator.new 0).update 1 1).1.amplitude ≤ (Fluctuator.new 0).amplitude) := by
  refine ⟨by norm_num, ?_⟩
  rw [Fluctuator.update_amplitude, Fluctuator.new_amplitude,
    Fluctuator.new_range_amplitude, Fluctuator.new_convergence_rate]
  simp only [RRange.clamp]
  norm_num [max_def, min_def]

/-- C4 (amended): provided the pre-call amplitude already lies inside
`[amplitude_min, amplitude_max]` and the shrink coefficient
`convergence_rate * amplitude_max` is nonnegative (as with the defaults),
a positive reward weakly shrinks the amplitude and a negative reward weakly
grows it (the growth saturating at the bound). -/
theorem c4_amended_monotone (f : Fluctuator) (dt reward : ℝ)
    (hlo : f.range_amplitude.start ≤ f.amplitude)
    (hhi : f.amplitude ≤ f.range_amplitude.stop)
    (hc : 0 ≤ f.convergence_rate) (hs : 0 ≤ f.range_amplitude.stop) :
    (0 < reward → ((f.update dt reward).1).amplitude ≤ f.amplitude) ∧
    (reward < 0 → f.amplitude ≤ ((f.update dt reward).1).amplitude) := by
  constructor
  · intro hr
    rw [Fluctuator.update_amplitude]
    simp only [RRange.clamp]
    have ht : 0 ≤ f.convergence_rate * f.range_amplitude.stop * reward :=
      mul_nonneg (mul_nonneg hc hs) (le_of_lt hr)
    exact max_le hlo (le_trans (min_le_right _ _) (sub_le_self _ ht))
  · intro hr
    rw [Fluctuator.update_amplitude]
    simp only [RRange.clamp]
    have ht : f.convergence_rate * f.range_amplitude.stop * reward ≤ 0 := by
      nlinarith [mul_nonneg hc hs]
    have hmin : f.amplitude ≤ min f.range_amplitude.stop
        (f.amplitude - f.convergence_rate * f.range_amplitude.stop * reward) :=
      le_min hhi (by linarith)
    exact le_trans hmin (le_max_right _ _)

/-- A Fluctuator in the default configuration with its amplitude raised to 1,
inside the bound range. -/
def c4_flux : Fluctuator := { Fluctuator.default with amplitude := 1 }

/-- C4 amended witness: concrete instance with in-range amplitude. -/
theorem c4_amended_monotone_witness :
    (c4_flux.range_amplitude.start ≤ c4_flux.amplitude ∧
      c4_flux.amplitude ≤ c4_flux.range_amplitude.stop ∧
      0 ≤ c4_flux.convergence_rate ∧ 0 ≤ c4_flux.range_amplitude.stop) ∧
    ((0 < (1 : ℝ) → ((c4_flux.update 1 1).1).amplitude ≤ c4_flux.amplitude) ∧
      ((1 : ℝ) < 0 → c4_flux.amplitude ≤ ((c4_flux.update 1 1).1).amplitude)) := by
  have h1 : c4_flux.range_amplitude.start ≤ c4_flux.amplitude := by
    norm_num [c4_flux, Fluctuator.default]
  have h2 : c4_flux.amplitude ≤ c4_flux.range_amplitude.stop := by
    norm_num [c4_flux, Fluctuator.default]
  have h3 : (0 : ℝ) ≤ c4_flux.convergence_rate := by
    norm_num [c4_flux, Fluctuator.default]
  have h4 : (0 : ℝ) ≤ c4_flux.range_amplitude.stop := by
    norm_num [c4_flux, Fluctuator.default]
  exact ⟨⟨h1, h2, h3, h4⟩, c4_amended_monotone c4_flux 1 1 h1 h2 h3 h4⟩

/-- One step of the external driving loop: call `update(dt, reward)` and keep
the mutated Fluctuator. -/
def fluctStep (f : Fluctuator) (p : ℝ × ℝ) : Fluctuator := (f.update p.1 p.2).1

/-- The Fluctuator state after a sequence of `(dt, reward)` update calls on a
freshly constructed `Fluctuator::new(c)`. -/
def fluctRun (c : ℝ) (steps : List (ℝ × ℝ)) : Fluctuator :=
  steps.foldl fluctStep (Fluctuator.new c)

theorem fluctStep_range_amplitude (f : Fluctuator) (p : ℝ × ℝ) :
    (fluctStep f p).range_amplitude = f.range_amplitude :=
  Fluctuator.update_range_amplitude f p.1 p.2

theorem fluctStep_amplitude_mem (f : Fluctuator) (p : ℝ × ℝ)
    (h : f.range_amplitude = ⟨0.001, 10⟩) :
    0.001 ≤ (fluctStep f p).amplitude ∧ (fluctStep f p).amplitude ≤ 10 := by
  unfold fluctStep
  rw [Fluctuator.update_amplitude, h]
  simp only [RRange.clamp]
  constructor
  · exact le_max_left _ _
  · exact max_le (by norm_num) (min_le_left _ _)

theorem foldl_fluctStep_amplitude (steps : List (ℝ × ℝ)) :
    ∀ f : Fluctuator, f.range_amplitude = ⟨0.001, 10⟩ →
      0.001 ≤ f.amplitude → f.amplitude ≤ 10 →
      0.001 ≤ (steps.foldl fluctStep f).amplitude ∧
        (steps.foldl fluctStep f).amplitude ≤ 10 := by
  induction steps with
  | nil => intro f _ h1 h2; exact ⟨h1, h2⟩
  | cons p rest ih =>
      intro f h h1 h2
      rw [List.foldl_cons]
      obtain ⟨g1, g2⟩ := fluctStep_amplitude_mem f p h
      exact ih (fluctStep f p) (by rw [fluctStep_range_amplitude, h]) g1 g2

/-- C5: starting from `Fluctuator::new` (default bounds `[0.001, 10.0]`),
after every nonempty sequence of `(dt, reward)` update calls the amplitude
lies in `[0.001, 10.0]`. -/
theorem c5_amplitude_bounded (c : ℝ) (steps : List (ℝ × ℝ)) (h : steps ≠ []) :
    0.001 ≤ (fluctRun c steps).amplitude ∧ (fluctRun c steps).amplitude ≤ 10 := by
  cases steps with
  | nil => exact absurd rfl h
  | cons p rest =>
      unfold fluctRun
      rw [List.foldl_cons]
      obtain ⟨g1, g2⟩ :=
        fluctStep_amplitude_mem (Fluctuator.new c) p (Fluctuator.new_range_amplitude c)
      exact foldl_fluctStep_amplitude rest _
        (by rw [fluctStep_range_amplitude, Fluctuator.new_range_amplitude]) g1 g2

/-- C5 witness: one concrete update call. -/
theorem c5_amplitude_bounded_witness :
    ([((1 : ℝ), (1 : ℝ))] : List (ℝ × ℝ)) ≠ [] ∧
      (0.001 ≤ (fluctRun 0 [(1, 1)]).amplitude ∧ (fluctRun 0 [(1, 1)]).amplitude ≤ 10) :=
  ⟨by simp, c5_amplitude_bounded 0 [(1, 1)] (by simp)⟩

theorem fluctRun_range_period (c : ℝ) (steps : List (ℝ × ℝ)) :
    (fluctRun c steps).range_period = ⟨3, 12⟩ := by
  unfold fluctRun
  have key : ∀ (l : List (ℝ × ℝ)) (f : Fluctuator),
      (l.foldl fluctStep f).range_period = f.range_period := by
    intro l
    induction l with
    | nil => intro f; rfl
    | cons p rest ih =>
        intro f
        rw [List.foldl_cons, ih]
        exact Fluctuator.update_range_period f p.1 p.2
  rw [key, Fluctuator.new_range_period]

theorem fluctRun_take_succ (c : ℝ) (steps : List (ℝ × ℝ)) (k : ℕ) (hk : k < steps.length) :
    fluctRun c (steps.take (k + 1)) = fluctStep (fluctRun c (steps.take k)) (steps.getD k (0, 0)) := by
  unfold fluctRun
  rw [List.take_succ]
  have hg : steps[k]? = some (steps.getD k (0, 0)) := by
    rw [← List.get?_eq_getElem?]
    exact get?_eq_some_getD steps (0, 0) k hk
  rw [hg, Option.toList_some, List.foldl_append, List.foldl_cons, List.foldl_nil]

/-- If a reachable Fluctuator (period range still the default `3.0..12.0`)
resamples its period, the new period is `3` and the time is reset to `0`. -/
theorem randomize_period_default (f : Fluctuator) (h : f.range_period = ⟨3, 12⟩) :
    f.randomize_period.period = 3 ∧ f.randomize_period.time = 0 := by
  unfold Fluctuator.randomize_period
  rw [h]
  norm_num

/-- C6: along any run of `update` calls with nonnegative `dt` on a freshly
constructed Fluctuator, after every call `time ≤ period`; the period resample
(time reset to 0, period re-derived — deterministically 3) fires exactly in
the calls whose pre-update `time + dt` exceeds the pre-update `period`, and
otherwise time just advances while the period is unchanged. -/
theorem c6_phase_wrap (c : ℝ) (steps : List (ℝ × ℝ)) (k : ℕ) (hk : k < steps.length)
    (hdt : ∀ p ∈ steps, 0 ≤ p.1) :
    (fluctRun c (steps.take (k + 1))).time ≤ (fluctRun c (steps.take (k + 1))).period ∧
    ((fluctRun c (steps.take k)).time + (steps.getD k (0, 0)).1 >
        (fluctRun c (steps.take k)).period →
      (fluctRun c (steps.take (k + 1))).time = 0 ∧
        (fluctRun c (steps.take (k + 1))).period = 3) ∧
    (¬ ((fluctRun c (steps.take k)).time + (steps.getD k (0, 0)).1 >
        (fluctRun c (steps.take k)).period) →
      (fluctRun c (steps.take (k + 1))).time =
          (fluctRun c (steps.take k)).time + (steps.getD k (0, 0)).1 ∧
        (fluctRun c (steps.take (k + 1))).period = (fluctRun c (steps.take k)).period) := by
  have hstep := fluctRun_take_succ c steps k hk
  obtain ⟨hfire, hquiet⟩ :=
    Fluctuator.update_time_period (fluctRun c (steps.take k)) (steps.getD k (0, 0)).1
      (steps.getD k (0, 0)).2
  have hrp := fluctRun_range_period c (steps.take k)
  have hper :
      (⌊((fluctRun c (steps.take k)).range_period.start +
        ((fluctRun c (steps.take k)).range_period.stop -
          (fluctRun c (steps.take k)).range_period.start) * 0.0) * 10.0⌋ : ℝ) / 10.0 = 3 := by
    rw [hrp]
    norm_num
  by_cases hcond : (fluctRun c (steps.take k)).time + (steps.getD k (0, 0)).1 >
      (fluctRun c (steps.take k)).period
  · obtain ⟨ht, hp⟩ := hfire hcond
    rw [hper] at hp
    refine ⟨?_, fun _ => ⟨?_, ?_⟩, fun hc => absurd hcond hc⟩
    · rw [hstep]
      show (fluctStep _ _).time ≤ (fluctStep _ _).period
      unfold fluctStep
      rw [ht, hp]
      norm_num
    · rw [hstep]; exact ht
    · rw [hstep]; exact hp
  · obtain ⟨ht, hp⟩ := hquiet hcond
    refine ⟨?_, fun hc => absurd hc hcond, fun _ => ⟨?_, ?_⟩⟩
    · rw [hstep]
      show (fluctStep _ _).time ≤ (fluctStep _ _).period
      unfold fluctStep
      rw [ht, hp]
      exact le_of_not_lt hcond
    · rw [hstep]; exact ht
    · rw [hstep]; exact hp

/-- C6 witness: first step of a concrete run. -/
theorem c6_phase_wrap_witness :
    (0 : ℕ) < ([((1 : ℝ), (0 : ℝ))] : List (ℝ × ℝ)).length ∧
      (∀ p ∈ ([((1 : ℝ), (0 : ℝ))] : List (ℝ × ℝ)), 0 ≤ p.1) ∧
      ((fluctRun 0 (([((1 : ℝ), (0 : ℝ))] : List (ℝ × ℝ)).take (0 + 1))).time ≤
          (fluctRun 0 (([((1 : ℝ), (0 : ℝ))] : List (ℝ × ℝ)).take (0 + 1))).period ∧
        ((fluctRun 0 (([((1 : ℝ), (0 : ℝ))] : List (ℝ × ℝ)).take 0)).time +
            (([((1 : ℝ), (0 : ℝ))] : List (ℝ × ℝ)).getD 0 (0, 0)).1 >
            (fluctRun 0 (([((1 : ℝ), (0 : ℝ))] : List (ℝ × ℝ)).take 0)).period →
          (fluctRun 0 (([((1 : ℝ), (0 : ℝ))] : List (ℝ × ℝ)).take (0 + 1))).time = 0 ∧
            (fluctRun 0 (([((1 : ℝ), (0 : ℝ))] : List (ℝ × ℝ)).take (0 + 1))).period = 3) ∧
        (¬ ((fluctRun 0 (([((1 : ℝ), (0 : ℝ))] : List (ℝ × ℝ)).take 0)).time +
            (([((1 : ℝ), (0 : ℝ))] : List (ℝ × ℝ)).getD 0 (0, 0)).1 >
            (fluctRun 0 (([((1 : ℝ), (0 : ℝ))] : List (ℝ × ℝ)).take 0)).period) →
          (fluctRun 0 (([((1 : ℝ), (0 : ℝ))] : List (ℝ × ℝ)).take (0 + 1))).time =
              (fluctRun 0 (([((1 : ℝ), (0 : ℝ))] : List (ℝ × ℝ)).take 0)).time +
                (([((1 : ℝ), (0 : ℝ))] : List (ℝ × ℝ)).getD 0 (0, 0)).1 ∧
            (fluctRun 0 (([((1 : ℝ), (0 : ℝ))] : List (ℝ × ℝ)).take (0 + 1))).period =
              (fluctRun 0 (([((1 : ℝ), (0 : ℝ))] : List (ℝ × ℝ)).take 0)).period)) :=
  ⟨by norm_num, by simp, c6_phase_wrap 0 [(1, 0)] 0 (by norm_num) (by simp)⟩

/-- C7: every period resample — at construction by `Fluctuator::new`, by a
direct `randomize_period` on any reachable state, and inside any `update`
whose advanced time exceeds the period — deterministically produces the lower
bound `3.0` of the period range `3.0..12.0` (not a random draw) and resets
`time` to `0`. -/
theorem c7_resample_lower_bound (c : ℝ) (steps : List (ℝ × ℝ)) :
    ((Fluctuator.new c).period = (Fluctuator.new c).range_period.start ∧
      (Fluctuator.new c).period = 3 ∧ (Fluctuator.new c).time = 0) ∧
    ((fluctRun c steps).randomize_period.period =
        (fluctRun c steps).range_period.start ∧
      (fluctRun c steps).randomize_period.period = 3 ∧
      (fluctRun c steps).randomize_period.time = 0) ∧
    (∀ dt reward : ℝ, (fluctRun c steps).time + dt > (fluctRun c steps).period →
      ((fluctRun c steps).update dt reward).1.period = 3 ∧
        ((fluctRun c steps).update dt reward).1.time = 0) := by
  have hrp := fluctRun_range_period c steps
  obtain ⟨hp, ht⟩ := randomize_period_default (fluctRun c steps) hrp
  refine ⟨⟨?_, Fluctuator.new_period c, Fluctuator.new_time c⟩, ⟨?_, hp, ht⟩, ?_⟩
  · rw [Fluctuator.new_period, Fluctuator.new_range_period]
  · rw [hp, hrp]
  · intro dt reward hcond
    obtain ⟨ht2, hp2⟩ :=
      (Fluctuator.update_time_period (fluctRun c steps) dt reward).1 hcond
    refine ⟨?_, ht2⟩
    rw [hp2, hrp]
    norm_num

theorem get?_set_self {α : Type} (l : List α) (i : ℕ) (a : α) (h : i < l.length) :
    (l.set i a).get? i = some a := by
  rw [List.get?_eq_getElem?]
  exact List.getElem?_set_eq_of_lt a h

/-- C9: each setter rewrites only the `center` of the one targeted Fluctuator
(for `set_weight(from, to, v)` the target is `weights[to][from]`: row = to =
post-synaptic target, column = from = pre-synaptic source); the targeted
Fluctuator keeps all its other fields (amplitude, period, time, ranges,
rates), and every other Fluctuator, the other collections and the node count
are unchanged. -/
theorem c9_setters_frame (c : RLCTRNN) (hwf : c.WF) (v : ℝ) :
    (∀ i, i < c.count →
      ∃ c2, c.set_bias i v = some c2 ∧
        c2.count = c.count ∧ c2.time_constants = c.time_constants ∧
        c2.weights = c.weights ∧
        c2.biases.get? i =
          some { c.biases.getD i Fluctuator.default with center := v } ∧
        ∀ j, j ≠ i → c2.biases.get? j = c.biases.get? j) ∧
    (∀ i, i < c.count →
      ∃ c2, c.set_time_constant i v = some c2 ∧
        c2.count = c.count ∧ c2.biases = c.biases ∧
        c2.weights = c.weights ∧
        c2.time_constants.get? i =
          some { c.time_constants.getD i Fluctuator.default with center := v } ∧
        ∀ j, j ≠ i → c2.time_constants.get? j = c.time_constants.get? j) ∧
    (∀ src tgt, src < c.count → tgt < c.count →
      ∃ c2, c.set_weight src tgt v = some c2 ∧
        c2.count = c.count ∧ c2.biases = c.biases ∧
        c2.time_constants = c.time_constants ∧
        c2.weights.get? tgt =
          some ((c.weights.getD tgt []).set src
            { (c.weights.getD tgt []).getD src Fluctuator.default with center := v }) ∧
        ((c.weights.getD tgt []).set src
            { (c.weights.getD tgt []).getD src Fluctuator.default with center := v }).get? src =
          some { (c.weights.getD tgt []).getD src Fluctuator.default with center := v } ∧
        (∀ j, j ≠ src →
          ((c.weights.getD tgt []).set src
            { (c.weights.getD tgt []).getD src Fluctuator.default with center := v }).get? j =
          (c.weights.getD tgt []).get? j) ∧
        ∀ r, r ≠ tgt → c2.weights.get? r = c.weights.get? r) := by
  obtain ⟨hb, ht, hw, hrow⟩ := hwf
  refine ⟨?_, ?_, ?_⟩
  · intro i hi
    have hlen : i < c.biases.length := by rw [hb]; exact hi
    refine ⟨{ c with biases := (c.biases.set i
        { c.biases.getD i Fluctuator.default with center := v }) }, ?_, rfl, rfl, rfl, ?_, ?_⟩
    · unfold RLCTRNN.set_bias
      rw [get?_eq_some_getD c.biases Fluctuator.default i hlen, Option.some_bind]
    · exact get?_set_self _ _ _ hlen
    · intro j hj
      exact List.get?_set_ne _ _ (Ne.symm hj)
  · intro i hi
    have hlen : i < c.time_constants.length := by rw [ht]; exact hi
    refine ⟨{ c with time_constants := (c.time_constants.set i
        { c.time_constants.getD i Fluctuator.default with center := v }) }, ?_, rfl, rfl, rfl, ?_, ?_⟩
    · unfold RLCTRNN.set_time_constant
      rw [get?_eq_some_getD c.time_constants Fluctuator.default i hlen, Option.some_bind]
    · exact get?_set_self _ _ _ hlen
    · intro j hj
      exact List.get?_set_ne _ _ (Ne.symm hj)
  · intro src tgt hsrc htgt
    have htlen : tgt < c.weights.length := by rw [hw]; exact htgt
    have hrg : c.weights.get? tgt = some (c.weights.getD tgt []) :=
      get?_eq_some_getD c.weights [] tgt htlen
    have hrlen : (c.weights.getD tgt []).length = c.count :=
      hrow _ (List.get?_mem hrg)
    have hslen : src < (c.weights.getD tgt []).length := by rw [hrlen]; exact hsrc
    refine ⟨{ c with weights := (c.weights.set tgt
        ((c.weights.getD tgt []).set src
          { (c.weights.getD tgt []).getD src Fluctuator.default with center := v })) },
      ?_, rfl, rfl, rfl, ?_, ?_, ?_, ?_⟩
    · unfold RLCTRNN.set_weight
      rw [hrg, Option.some_bind,
        get?_eq_some_getD (c.weights.getD tgt []) Fluctuator.default src hslen,
        Option.some_bind]
    · exact get?_set_self _ _ _ htlen
    · exact get?_set_self _ _ _ hslen
    · intro j hj
      exact List.get?_set_ne _ _ (Ne.symm hj)
    · intro r hr
      exact List.get?_set_ne _ _ (Ne.symm hr)

/-- C9 witness: the setters on a concrete 2-node network at in-range indices. -/
theorem c9_setters_frame_witness :
    (RLCTRNN.new 2).WF ∧
      ((∃ c2, (RLCTRNN.new 2).set_bias 0 7 = some c2 ∧
          c2.count = (RLCTRNN.new 2).count ∧
          c2.time_constants = (RLCTRNN.new 2).time_constants ∧
          c2.weights = (RLCTRNN.new 2).weights ∧
          c2.biases.get? 0 =
            some { (RLCTRNN.new 2).biases.getD 0 Fluctuator.default with center := 7 } ∧
          ∀ j, j ≠ 0 → c2.biases.get? j = (RLCTRNN.new 2).biases.get? j)) :=
  ⟨RLCTRNN.new_WF 2,
    ((c9_setters_frame (RLCTRNN.new 2) (RLCTRNN.new_WF 2) 7).1 0 (by norm_num [RLCTRNN.new]))⟩

/-! ## Plain CTRNN (src/lib.rs and src/node.rs) -/

/-- src/node.rs: per-node parameters (bias and time constant). -/
structure Node where
  bias : ℝ
  time_constant : ℝ

/-- src/node.rs, `Node::new(bias, dt)`. -/
def Node.new (bias dt : ℝ) : Node := ⟨bias, dt⟩

/-- src/node.rs, `impl Default for Node`: `Node::new(0.0, 1.0)`. -/
def Node.default : Node := Node.new 0 1

/-- src/lib.rs: the `CTRNN` struct. -/
structure CTRNN where
  count : ℕ
  nodes : List Node
  weights : List (List ℝ)
  states : List ℝ

/-- src/lib.rs, `CTRNN::new(nodes)`. -/
def CTRNN.new (nodes : ℕ) : CTRNN where
  count := nodes
  nodes := List.replicate nodes Node.default
  weights := List.replicate nodes (List.replicate nodes 0)
  states := List.replicate nodes 0

/-- src/lib.rs, `CTRNN::tick(inputs, dt)`: snapshots the states, then for each
node `i` accumulates `weight * sigmoid(presynaptic - bias)` over its incoming
weights, skipping entries with `weight == 0.0`, computes
`dy = (sum - postsynaptic + inputs[i]) / time_constant` and stores
`postsynaptic + dy * dt`; the new state vector replaces `states`
(a panicking index is `none`). -/
def CTRNN.tick (c : CTRNN) (inputs : List ℝ) (dt : ℝ) : Option CTRNN :=
  ((List.range c.count).mapM fun i =>
    (c.weights.get? i).bind fun ws =>
      (c.states.get? i).bind fun postsynaptic =>
        ((List.range c.count).foldlM (fun sum j =>
            (ws.get? j).bind fun weight =>
              if weight = 0 then some sum
              else
                (c.states.get? j).bind fun presynaptic =>
                  (c.nodes.get? j).bind fun node =>
                    some (sum + weight * sigmoid (presynaptic - node.bias))) 0).bind fun sum =>
          (inputs.get? i).bind fun input =>
            (c.nodes.get? i).bind fun node =>
              some (postsynaptic + (sum - postsynaptic + input) / node.time_constant * dt)).map
    fun states => { c with states := states }

/-- Shape invariant of a `CTRNN`. -/
def CTRNN.WF (c : CTRNN) : Prop :=
  c.nodes.length = c.count ∧ c.weights.length = c.count ∧
    (∀ row ∈ c.weights, row.length = c.count) ∧ c.states.length = c.count

theorem foldl_ite_add_range (w g : ℕ → ℝ) (n : ℕ) :
    ∀ a : ℝ, (List.range n).foldl (fun s j => if w j = 0 then s else s + g j) a
      = a + ∑ j ∈ Finset.range n, (if w j = 0 then 0 else g j) := by
  induction n with
  | zero => intro a; simp
  | succ n ih =>
      intro a
      rw [List.range_succ, List.foldl_append, ih, Finset.sum_range_succ, List.foldl_cons,
        List.foldl_nil]
      by_cases hz : w n = 0
      · rw [if_pos hz, if_pos hz, add_zero]
      · rw [if_neg hz, if_neg hz, add_assoc]

theorem sum_ite_zero_weight (w g : ℕ → ℝ) (n : ℕ) :
    (∑ j ∈ Finset.range n, (if w j = 0 then 0 else w j * g j)) =
      ∑ j ∈ Finset.range n, w j * g j := by
  apply Finset.sum_congr rfl
  intro j _
  by_cases hz : w j = 0
  · rw [if_pos hz, hz, zero_mul]
  · rw [if_neg hz]

/-- `tick` evaluates to the discretized update formula (the zero-weight skip
only drops vanishing summands) when the structure is well-formed and the
input vector covers all nodes. -/
theorem CTRNN.tick_eq (c : CTRNN) (hwf : c.WF) (inputs : List ℝ) (dt : ℝ)
    (hi : c.count ≤ inputs.length) :
    c.tick inputs dt = some { c with states := ((List.range c.count).map (fun i =>
      c.states.getD i 0 +
        ((∑ j ∈ Finset.range c.count, (c.weights.getD i []).getD j 0 *
            sigmoid (c.states.getD j 0 - (c.nodes.getD j Node.default).bias)) -
          c.states.getD i 0 + inputs.getD i 0) /
            (c.nodes.getD i Node.default).time_constant * dt)) } := by
  obtain ⟨hn, hw, hrow, hs⟩ := hwf
  unfold CTRNN.tick
  rw [mapM_option_eq_map _ (fun i =>
      c.states.getD i 0 +
        ((∑ j ∈ Finset.range c.count, (c.weights.getD i []).getD j 0 *
            sigmoid (c.states.getD j 0 - (c.nodes.getD j Node.default).bias)) -
          c.states.getD i 0 + inputs.getD i 0) /
            (c.nodes.getD i Node.default).time_constant * dt) (List.range c.count) ?_]
  · rfl
  · intro i hi2
    have hic : i < c.count := List.mem_range.mp hi2
    have hwlen : i < c.weights.length := by rw [hw]; exact hic
    have hrg : c.weights.get? i = some (c.weights.getD i []) :=
      get?_eq_some_getD c.weights [] i hwlen
    have hrlen : (c.weights.getD i []).length = c.count := hrow _ (List.get?_mem hrg)
    rw [hrg, Option.some_bind,
      get?_eq_some_getD c.states 0 i (by rw [hs]; exact hic), Option.some_bind]
    rw [foldlM_option_eq_foldl _
        (fun s j => if (c.weights.getD i []).getD j 0 = 0 then s
          else s + (c.weights.getD i []).getD j 0 *
            sigmoid (c.states.getD j 0 - (c.nodes.getD j Node.default).bias))
        (List.range c.count) ?_ 0]
    · rw [Option.some_bind, foldl_ite_add_range, zero_add, sum_ite_zero_weight,
        get?_eq_some_getD inputs 0 i (lt_of_lt_of_le hic hi), Option.some_bind,
        get?_eq_some_getD c.nodes Node.default i (by rw [hn]; exact hic), Option.some_bind]
    · intro s j hj
      have hjc : j < c.count := List.mem_range.mp hj
      rw [get?_eq_some_getD (c.weights.getD i []) 0 j (by rw [hrlen]; exact hjc),
        Option.some_bind]
      by_cases hz : (c.weights.getD i []).getD j 0 = 0
      · simp only [if_pos hz]
      · simp only [if_neg hz]
        rw [get?_eq_some_getD c.states 0 j (by rw [hs]; exact hjc), Option.some_bind,
          get?_eq_some_getD c.nodes Node.default j (by rw [hn]; exact hjc), Option.some_bind]

theorem getD_replicate_zero (n i : ℕ) : (List.replicate n (0 : ℝ)).getD i 0 = 0 := by
  rw [List.getD_eq_getD_get?]
  cases h : (List.replicate n (0 : ℝ)).get? i with
  | none => rfl
  | some x =>
      show x = 0
      exact List.eq_of_mem_replicate (List.get?_mem h)

theorem getD_map_of_lt {α β : Type} (f : α → β) (l : List α) (i : ℕ) (d : α) (d2 : β)
    (h : i < l.length) : (l.map f).getD i d2 = f (l.getD i d) := by
  rw [List.getD_eq_getD_get?, List.get?_map, get?_eq_some_getD l d i h]
  rfl

theorem getD_range (n i : ℕ) (h : i < n) : (List.range n).getD i 0 = i := by
  rw [List.getD_eq_getD_get?, List.get?_range h]
  rfl

/-- C3 counterexample: with all parameters at the construction defaults
(zero weights, zero biases, unit time constants) the two variants already
disagree on a nonzero input — `CTRNN::new(1)` with state `[0]`, input `[1]`,
`dt = 0.1` ticks to `[0.1]` (the input is divided by the time constant and
scaled by `dt`), while `RLCTRNN::new(1)` updates `[0]` with input `[1]` to
`[1]` (the input is added unscaled); and with a nonzero bias `1` (zero input)
the plain variant computes `sigmoid(state - bias)` giving `[1/2]` while the
adaptive variant computes `sigmoid(state + bias)` giving `[sigmoid 2] ≠ [1/2]`. -/
theorem c3_counterexample :
    (((CTRNN.new 1).tick [1] 0.1).map CTRNN.states = some [0.1] ∧
      (RLCTRNN.new 1).update 0.1 [0] [1] = some [1] ∧
      (0.1 : ℝ) ≠ 1) ∧
    ((({ count := 1, nodes := [Node.new 1 1], weights := [[1]],
          states := [1] } : CTRNN).tick [0] 1).map CTRNN.states = some [1 / 2] ∧
      ({ count := 1, biases := [Fluctuator.new 1],
          time_constants := [Fluctuator.new 1],
          weights := [[Fluctuator.new 1]] } : RLCTRNN).update 1 [1] [0] =
        some [sigmoid 2] ∧
      (1 / 2 : ℝ) ≠ sigmoid 2) := by
  have hs2 : (1 / 2 : ℝ) < sigmoid 2 := by
    rw [sigmoid]
    have he : Real.exp (-2) < 1 := Real.exp_lt_one_iff.mpr (by norm_num)
    have hp : (0 : ℝ) < 1 + Real.exp (-2) := by positivity
    calc (1 / 2 : ℝ) = 2⁻¹ := by norm_num
    _ < (1 + Real.exp (-2))⁻¹ := inv_lt_inv_of_lt hp (by linarith)
  have hwfc : (CTRNN.new 1).WF := by
    refine ⟨rfl, rfl, ?_, rfl⟩
    intro row hrow
    rw [List.eq_of_mem_replicate hrow]
    rfl
  refine ⟨⟨?_, ?_, by norm_num⟩, ⟨?_, ?_, ne_of_lt hs2⟩⟩
  · rw [CTRNN.tick_eq _ hwfc [1] 0.1 (by simp [CTRNN.new]), Option.map_some']
    simp only [show List.range 1 = [0] from rfl, List.map_cons, List.map_nil,
      Finset.sum_range_succ, Finset.sum_range_zero, CTRNN.new, List.replicate,
      List.getD, List.get?, Option.getD_some, Node.default, Node.new]
    norm_num
  · rw [RLCTRNN.update_eq _ (RLCTRNN.new_WF 1) 0.1 [0] [1] (by simp [RLCTRNN.new])]
    simp only [show List.range 1 = [0] from rfl, List.map_cons, List.map_nil,
      Finset.sum_range_succ, Finset.sum_range_zero, RLCTRNN.new, List.replicate,
      List.getD, List.get?, Option.getD_some, Fluctuator.get_new]
    norm_num
  · rw [CTRNN.tick_eq _ ⟨rfl, rfl, by intro row hrow; fin_cases hrow <;> rfl, rfl⟩ [0] 1
      (by norm_num), Option.map_some']
    simp only [show List.range 1 = [0] from rfl, List.map_cons, List.map_nil,
      Finset.sum_range_succ, Finset.sum_range_zero,
      List.getD, List.get?, Option.getD_some, Node.new]
    norm_num [sigmoid_zero]
  · rw [RLCTRNN.update_eq _ ⟨rfl, rfl, rfl, by intro row hrow; fin_cases hrow <;> rfl⟩ 1 [1] [0]
      (by norm_num)]
    simp only [show List.range 1 = [0] from rfl, List.map_cons, List.map_nil,
      Finset.sum_range_succ, Finset.sum_range_zero,
      List.getD, List.get?, Option.getD_some, Fluctuator.get_new]
    norm_num

/-- A plain CTRNN with explicitly given constant parameters: node `j` has
bias `-(b[j])` (negated, see the C3 counterexample) and time constant `τ[j]`;
the weight matrix is `w`; the current state vector is `v`. -/
def ctrnnOf (n : ℕ) (w : List (List ℝ)) (b τ v : List ℝ) : CTRNN where
  count := n
  nodes := (List.range n).map (fun j => Node.new (-(b.getD j 0)) (τ.getD j 0))
  weights := w
  states := v

/-- An RLCTRNN whose Fluctuators are all freshly constructed (`amplitude 0`,
so each `get()` returns exactly its center) holding the constant parameters
`w`, `b`, `τ`. -/
def rlctrnnOf (n : ℕ) (w : List (List ℝ)) (b τ : List ℝ) : RLCTRNN where
  count := n
  biases := b.map Fluctuator.new
  time_constants := τ.map Fluctuator.new
  weights := w.map (fun row => row.map Fluctuator.new)

/-- C3 (amended): with an all-zero input vector, and with each plain-CTRNN
node bias set to the NEGATION of the corresponding bias Fluctuator center
(the plain variant computes `sigmoid(state - bias)` where the adaptive one
computes `sigmoid(state + bias)`), `CTRNN::tick` computes exactly the
next-state vector of `RLCTRNN::update` with every Fluctuator held constant
(amplitude 0) at the given weight/bias/time-constant values. -/
theorem c3_amended_zero_input_refinement (n : ℕ) (w : List (List ℝ)) (b τ v : List ℝ)
    (dt : ℝ) (hw : w.length = n) (hrow : ∀ row ∈ w, row.length = n)
    (hb : b.length = n) (hτ : τ.length = n) (hv : v.length = n) :
    ((ctrnnOf n w b τ v).tick (List.replicate n 0) dt).map CTRNN.states =
      (rlctrnnOf n w b τ).update dt v (List.replicate n 0) := by
  have hwfc : (ctrnnOf n w b τ v).WF := by
    refine ⟨?_, hw, hrow, hv⟩
    show ((List.range n).map _).length = n
    rw [List.length_map, List.length_range]
  have hwfr : (rlctrnnOf n w b τ).WF := by
    refine ⟨?_, ?_, ?_, ?_⟩
    · show (b.map Fluctuator.new).length = n
      rw [List.length_map, hb]
    · show (τ.map Fluctuator.new).length = n
      rw [List.length_map, hτ]
    · show (w.map _).length = n
      rw [List.length_map, hw]
    · intro row hrow2
      obtain ⟨orig, ho, rfl⟩ := List.mem_map.mp hrow2
      show (orig.map Fluctuator.new).length = n
      rw [List.length_map]
      exact hrow orig ho
  rw [CTRNN.tick_eq _ hwfc (List.replicate n 0) dt (by simp [ctrnnOf]),
    RLCTRNN.update_eq _ hwfr dt v (List.replicate n 0) (le_of_eq hv.symm),
    Option.map_some']
  simp only [ctrnnOf, rlctrnnOf]
  congr 1
  apply List.map_congr_left
  intro i hi
  have hin : i < n := List.mem_range.mp hi
  have hwi : i < w.length := by rw [hw]; exact hin
  have hrli : (w.getD i []).length = n :=
    hrow _ (List.get?_mem (get?_eq_some_getD w [] i hwi))
  have hgb : ∀ j, j < n →
      ((b.map Fluctuator.new).getD j Fluctuator.default).get = b.getD j 0 := by
    intro j hj
    rw [getD_map_of_lt Fluctuator.new b j 0 Fluctuator.default (by rw [hb]; exact hj),
      Fluctuator.get_new]
  have hgτ : ((τ.map Fluctuator.new).getD i Fluctuator.default).get = τ.getD i 0 := by
    rw [getD_map_of_lt Fluctuator.new τ i 0 Fluctuator.default (by rw [hτ]; exact hin),
      Fluctuator.get_new]
  have hgw : ∀ j, j < n →
      (((w.map (fun row => row.map Fluctuator.new)).getD i []).getD j Fluctuator.default).get
        = (w.getD i []).getD j 0 := by
    intro j hj
    rw [getD_map_of_lt (fun row => row.map Fluctuator.new) w i [] [] hwi,
      getD_map_of_lt Fluctuator.new (w.getD i []) j 0 Fluctuator.default
        (by rw [hrli]; exact hj),
      Fluctuator.get_new]
  have hnd : ∀ j, j < n →
      (((List.range n).map (fun k => Node.new (-(b.getD k 0)) (τ.getD k 0))).getD
          j Node.default) = Node.new (-(b.getD j 0)) (τ.getD j 0) := by
    intro j hj
    rw [getD_map_of_lt _ (List.range n) j 0 Node.default
        (by rw [List.length_range]; exact hj),
      getD_range n j hj]
  have hsum : (∑ j ∈ Finset.range n, (w.getD i []).getD j 0 *
      sigmoid (v.getD j 0 -
        (((List.range n).map (fun k => Node.new (-(b.getD k 0)) (τ.getD k 0))).getD
          j Node.default).bias)) =
      ∑ j ∈ Finset.range n,
        (((w.map (fun row => row.map Fluctuator.new)).getD i []).getD j Fluctuator.default).get *
          sigmoid (v.getD j 0 + ((b.map Fluctuator.new).getD j Fluctuator.default).get) := by
    apply Finset.sum_congr rfl
    intro j hj
    have hjn := Finset.mem_range.mp hj
    rw [hgw j hjn, hgb j hjn, hnd j hjn]
    show (w.getD i []).getD j 0 * sigmoid (v.getD j 0 - -(b.getD j 0)) = _
    rw [sub_neg_eq_add]
  rw [getD_replicate_zero n i, hgτ, hnd i hin, hsum]
  simp only [Node.new]
  ring

/-- C3 amended witness: a concrete 1-node instance (weight 2, bias 3, time
constant 5, state 7). -/
theorem c3_amended_zero_input_refinement_witness :
    ([[(2 : ℝ)]] : List (List ℝ)).length = 1 ∧
      (∀ row ∈ ([[(2 : ℝ)]] : List (List ℝ)), row.length = 1) ∧
      ([(3 : ℝ)] : List ℝ).length = 1 ∧ ([(5 : ℝ)] : List ℝ).length = 1 ∧
      ([(7 : ℝ)] : List ℝ).length = 1 ∧
      ((ctrnnOf 1 [[2]] [3] [5] [7]).tick (List.replicate 1 0) 0.1).map CTRNN.states =
        (rlctrnnOf 1 [[2]] [3] [5]).update 0.1 [7] (List.replicate 1 0) :=
  ⟨rfl, by intro row hrow; fin_cases hrow; rfl, rfl, rfl, rfl,
    c3_amended_zero_input_refinement 1 [[2]] [3] [5] [7] 0.1 rfl
      (by intro row hrow; fin_cases hrow; rfl) rfl rfl rfl⟩
